import Mathlib

/-!
Shallow embedding of `stream.py`: a stream-oriented Modbus RTU frame
splitter/decoder. Bytes are modelled as `Nat` values (`< 256` on the wire);
machine arithmetic is explicit. Python list slices `data[i:j]` become
`(data.drop i).take (j - i)` (both clamp), negative indices `message[-k]`
become `message.getD (message.length - k) 0`, and the register list
comprehension, which can raise `IndexError` on an odd-length slice, is
modelled with an `Option` result.
-/

set_option maxRecDepth 8000

namespace Stream

/-- One bit-step of the CRC register: `crc >>= 1`, xoring in `0xA001` when the
low bit was set (`stream.py`, lines 29-34). -/
def crcStep (c : Nat) : Nat :=
  if c &&& 1 ≠ 0 then (c >>> 1) ^^^ 0xA001 else c >>> 1

/-- One byte-update of the CRC register: xor the byte in, then run eight
bit-steps (`stream.py`, lines 27-34). -/
def crcUpd (crc pos : Nat) : Nat := crcStep^[8] (crc ^^^ pos)

/-- `crc16` from `stream.py` (lines 25-35): initial register `0xFFFF`, one
`crcUpd` per byte. -/
def crc16 (data : List Nat) : Nat := data.foldl crcUpd 0xFFFF

/-- The CRC comparison of `decode_message` (lines 76-82): the trailing two
bytes, read little-endian, must equal the CRC of the preceding bytes. -/
def crcOk (message : List Nat) : Prop :=
  message.getD (message.length - 2) 0 + (message.getD (message.length - 1) 0) <<< 8
    = crc16 (message.take (message.length - 2))

instance (message : List Nat) : Decidable (crcOk message) := by
  unfold crcOk; infer_instance

/-- The typed view of a decoded frame (`decode_message`, lines 86-101): the
request branch, the response branch, and the unsupported-function-code
branch. -/
inductive DecodedMessage : Type
  | request (slave_id function_code start_address num_registers : Nat)
  | response (slave_id function_code byte_count : Nat) (registers : List Nat)
  | unsupported (function_code : Nat)
  deriving DecidableEq, Repr

/-- Outcome of one `decode_message` call: the two early-return diagnostics
(lines 71-73 and 82-84), a decoded message, or a runtime `IndexError` raised
by the register comprehension (line 98) on an odd-length data slice. -/
inductive DecodeResult : Type
  | incomplete
  | crcFail
  | msg (m : DecodedMessage)
  | err
  deriving DecidableEq, Repr

/-- The register list comprehension of line 98:
`[(rd[i] << 8) + rd[i+1] for i in range(0, len(rd), 2)]`.
Reading `rd[i+1]` past the end raises `IndexError`, hence `none`. -/
def pairRegisters : List Nat → Option (List Nat)
  | [] => some []
  | [_] => none
  | a :: b :: rest => (pairRegisters rest).map (fun t => ((a <<< 8) + b) :: t)

/-- `decode_message` from `stream.py` (lines 70-101); the Python locals
`slave_id = message[0]`, `function_code = message[1]` and
`byte_count = message[2]` are inlined. -/
def decode_message (message : List Nat) : DecodeResult :=
  if message.length < 5 then .incomplete
  else if ¬ crcOk message then .crcFail
  else if message.getD 1 0 = 0x03 then
    if message.length = 8 then
      .msg (.request (message.getD 0 0) (message.getD 1 0)
        ((message.getD 2 0) <<< 8 + message.getD 3 0)
        ((message.getD 4 0) <<< 8 + message.getD 5 0))
    else
      match pairRegisters ((message.drop 3).take (message.getD 2 0)) with
      | some registers =>
        .msg (.response (message.getD 0 0) (message.getD 1 0) (message.getD 2 0) registers)
      | none => .err
  else .msg (.unsupported (message.getD 1 0))

/-- The scanning loop of `split_frames` (lines 37-65), made explicit in the
cursor `i`: returns the extracted frames together with the final cursor
position at which the loop stopped (`break` or `i ≥ len(data)`). -/
def splitAux (data : List Nat) (i : Nat) : List (List Nat) × Nat :=
  if h4 : data.length < i + 4 then ([], i)
  else if data.getD (i + 1) 0 = 0x03 then
    if hreq : i + 5 ≤ data.length ∧ (data.getD (i + 2) 0) <<< 8 + data.getD (i + 3) 0 ≤ 0x007D then
      if h8 : i + 8 ≤ data.length then
        let r := splitAux data (i + 8)
        (((data.drop i).take 8) :: r.1, r.2)
      else ([], i)
    else if hresp : i + 2 < data.length then
      if hfit : i + (3 + data.getD (i + 2) 0 + 2) ≤ data.length then
        let r := splitAux data (i + (3 + data.getD (i + 2) 0 + 2))
        (((data.drop i).take (3 + data.getD (i + 2) 0 + 2)) :: r.1, r.2)
      else ([], i)
    else ([], i)
  else splitAux data (i + 1)
termination_by data.length - i
decreasing_by
  · omega
  · omega
  · omega

/-- `split_frames` (lines 37-65): the list of candidate frames extracted from
one buffer, scanning from cursor 0. -/
def split_frames (data : List Nat) : List (List Nat) :=
  (splitAux data 0).1

/-- The unconsumed tail of the buffer after one `split_frames` scan: the bytes
from the final cursor on. (`split_frames` itself never mutates `data`; `main`
discards this remainder.) -/
def splitRest (data : List Nat) : List Nat :=
  data.drop (splitAux data 0).2

/-- `decode_frames` (lines 67-69): decode each frame in order; an uncaught
`IndexError` from `decode_message` aborts the loop. -/
def decode_frames : List (List Nat) → List DecodeResult
  | [] => []
  | f :: rest =>
    match decode_message f with
    | .err => [.err]
    | r => r :: decode_frames rest

/-- The receive loop of `main` (lines 103-118): each `recv` chunk is passed to
`split_frames` on its own and the unconsumed remainder is discarded; an
uncaught exception in `decode_frames` ends the process. -/
def processChunks : List (List Nat) → List DecodeResult
  | [] => []
  | chunk :: rest =>
    let rs := decode_frames (split_frames chunk)
    if DecodeResult.err ∈ rs then rs else rs ++ processChunks rest

/-! ### CRC linearity over GF(2) -/

theorem xor_shiftRight_one (a b : Nat) : (a ^^^ b) >>> 1 = a >>> 1 ^^^ b >>> 1 := by
  simp only [Nat.shiftRight_one]
  apply Nat.eq_of_testBit_eq
  intro i
  simp [Nat.testBit_div_two, Nat.testBit_xor]

theorem crcStep_xor (a b : Nat) : crcStep (a ^^^ b) = crcStep a ^^^ crcStep b := by
  have hx : (a ^^^ b) &&& 1 = (a &&& 1) ^^^ (b &&& 1) := Nat.and_xor_distrib_right ..
  have ha : a &&& 1 = 0 ∨ a &&& 1 = 1 := by
    rw [Nat.and_one_is_mod]; exact Nat.mod_two_eq_zero_or_one a
  have hb : b &&& 1 = 0 ∨ b &&& 1 = 1 := by
    rw [Nat.and_one_is_mod]; exact Nat.mod_two_eq_zero_or_one b
  rcases ha with ha | ha <;> rcases hb with hb | hb <;>
    simp [crcStep, hx, ha, hb, xor_shiftRight_one, Nat.xor_assoc]
  all_goals first
    | exact Nat.xor_comm _ _
    | (rw [Nat.xor_comm (b >>> 1) 40961]; exact (Nat.xor_cancel_left _ _).symm)

theorem crcStep_lt {c : Nat} (h : c < 65536) : crcStep c < 65536 := by
  have h2 : c >>> 1 < 32768 := by
    rw [Nat.shiftRight_one]; omega
  unfold crcStep
  split
  · have h16 : (65536 : Nat) = 2 ^ 16 := by norm_num
    rw [h16]
    exact Nat.xor_lt_two_pow (by omega) (by norm_num)
  · omega

theorem crcStep_eq_zero {c : Nat} (hlt : c < 65536) (h : crcStep c = 0) : c = 0 := by
  unfold crcStep at h
  split at h
  · exfalso
    have hA : c >>> 1 = 0xA001 := by
      have h0 := Nat.xor_eq_zero.mp h
      omega
    rw [Nat.shiftRight_one] at hA
    omega
  · rename_i hbit
    simp only [ne_eq, Decidable.not_not] at hbit
    rw [Nat.and_one_is_mod] at hbit
    rw [Nat.shiftRight_one] at h
    omega

theorem crcStep_iterate_xor (n a b : Nat) :
    crcStep^[n] (a ^^^ b) = crcStep^[n] a ^^^ crcStep^[n] b := by
  induction n generalizing a b with
  | zero => simp
  | succ n ih =>
    simp only [Function.iterate_succ_apply, crcStep_xor]
    exact ih _ _

theorem crcStep_iterate_lt {c : Nat} (n : Nat) (h : c < 65536) : crcStep^[n] c < 65536 := by
  induction n with
  | zero => simpa
  | succ n ih =>
    rw [Function.iterate_succ_apply']
    exact crcStep_lt ih

theorem crcStep_iterate_ne_zero {c : Nat} (n : Nat) (hlt : c < 65536) (h : c ≠ 0) :
    crcStep^[n] c ≠ 0 := by
  induction n with
  | zero => simpa
  | succ n ih =>
    rw [Function.iterate_succ_apply']
    intro h0
    exact ih (crcStep_eq_zero (crcStep_iterate_lt n hlt) h0)

theorem crcUpd_xor (c p δ : Nat) : crcUpd (c ^^^ δ) p = crcUpd c p ^^^ crcStep^[8] δ := by
  unfold crcUpd
  rw [Nat.xor_comm c δ, Nat.xor_assoc, Nat.xor_comm δ _, crcStep_iterate_xor]

theorem foldl_crcUpd_xor (post : List Nat) (u δ : Nat) :
    post.foldl crcUpd (u ^^^ δ) = post.foldl crcUpd u ^^^ crcStep^[8 * post.length] δ := by
  induction post generalizing u δ with
  | nil => simp
  | cons p post ih =>
    simp only [List.foldl_cons, List.length_cons]
    rw [crcUpd_xor, ih]
    have h8 : 8 * (post.length + 1) = 8 * post.length + 8 := by ring
    rw [h8, Function.iterate_add_apply]

theorem crcUpd_mutate (C b b' : Nat) :
    crcUpd C b' = crcUpd C b ^^^ crcStep^[8] (b ^^^ b') := by
  unfold crcUpd
  rw [← crcStep_iterate_xor]
  congr 1
  rw [Nat.xor_assoc, Nat.xor_cancel_left]

theorem crc16_mutate (pre post : List Nat) (b b' : Nat) :
    crc16 (pre ++ b' :: post)
      = crc16 (pre ++ b :: post) ^^^ crcStep^[8 * post.length + 8] (b ^^^ b') := by
  unfold crc16
  rw [List.foldl_append, List.foldl_append, List.foldl_cons, List.foldl_cons,
    crcUpd_mutate _ b b', foldl_crcUpd_xor, ← Function.iterate_add_apply]

theorem crc16_mutate_ne (pre post : List Nat) {b b' : Nat}
    (hb : b < 65536) (hb' : b' < 65536) (hne : b ≠ b') :
    crc16 (pre ++ b' :: post) ≠ crc16 (pre ++ b :: post) := by
  rw [crc16_mutate pre post b b']
  intro h
  have hδ : b ^^^ b' ≠ 0 := fun h0 => hne (Nat.xor_eq_zero.mp h0)
  have hδlt : b ^^^ b' < 65536 := by
    have h16 : (65536 : Nat) = 2 ^ 16 := by norm_num
    rw [h16] at hb hb' ⊢
    exact Nat.xor_lt_two_pow hb hb'
  have hD := crcStep_iterate_ne_zero (8 * post.length + 8) hδlt hδ
  apply hD
  have h2 := congrArg (fun x => crc16 (pre ++ b :: post) ^^^ x) h.symm
  simpa [Nat.xor_cancel_left] using h2.symm

/-! ### Single-byte mutations break the CRC comparison -/

theorem crcOk_mutate_aux (pre post : List Nat) (b b' : Nat)
    (hb : b < 65536) (hb' : b' < 65536) (hne : b' ≠ b)
    (hlen : 5 ≤ (pre ++ b :: post).length)
    (hok : crcOk (pre ++ b :: post)) :
    ¬ crcOk (pre ++ b' :: post) := by
  intro hok'
  unfold crcOk at hok hok'
  simp only [List.length_append, List.length_cons] at hok hok' hlen
  rcases post with _ | ⟨z, post2⟩
  · -- the mutated byte is the final (high CRC) byte
    simp only [List.length_nil] at hok hok' hlen
    have hp : 4 ≤ pre.length := by omega
    have e1 : pre.length + (0 + 1) - 2 = pre.length - 1 := by omega
    have e2 : pre.length + (0 + 1) - 1 = pre.length := by omega
    rw [e1, e2] at hok hok'
    rw [List.getD_append _ _ _ _ (by omega), List.getD_append_right _ _ _ _ (by omega),
      Nat.sub_self, List.getD_cons_zero,
      List.take_append_eq_append_take] at hok hok'
    have e3 : pre.length - 1 - pre.length = 0 := by omega
    rw [e3, List.take_zero, List.append_nil] at hok hok'
    rw [Nat.shiftLeft_eq] at hok hok'
    have : b = b' := by omega
    exact hne this.symm
  · rcases post2 with _ | ⟨w, post3⟩
    · -- the mutated byte is the low CRC byte
      simp only [List.length_cons, List.length_nil] at hok hok' hlen
      have e1 : pre.length + (0 + 1 + 1) - 2 = pre.length := by omega
      have e2 : pre.length + (0 + 1 + 1) - 1 = pre.length + 1 := by omega
      rw [e1, e2] at hok hok'
      rw [List.getD_append_right _ _ _ _ (le_refl _), Nat.sub_self, List.getD_cons_zero,
        List.getD_append_right _ _ _ _ (by omega)] at hok hok'
      have e3 : pre.length + 1 - pre.length = 1 := by omega
      rw [e3, List.getD_cons_succ, List.getD_cons_zero,
        List.take_left' rfl] at hok hok'
      have : b = b' := by omega
      exact hne this.symm
    · -- the mutated byte is covered by the CRC computation
      simp only [List.length_cons] at hok hok' hlen
      set q := post3.length + 1 + 1 with hq
      have e1 : pre.length + (q + 1) - 2 = pre.length + (q - 1) := by omega
      have e2 : pre.length + (q + 1) - 1 = pre.length + q := by omega
      rw [e1, e2] at hok hok'
      rw [List.getD_append_right _ _ _ _ (by omega),
        List.getD_append_right _ _ _ _ (by omega)] at hok hok'
      have e3 : pre.length + (q - 1) - pre.length = q - 1 := by omega
      have e4 : pre.length + q - pre.length = q := by omega
      rw [e3, e4] at hok hok'
      have e5 : q - 1 = post3.length + 1 := by omega
      rw [e5] at hok hok'
      rw [List.take_append_eq_append_take,
        List.take_of_length_le (by omega)] at hok hok'
      have e6 : pre.length + (post3.length + 1) - pre.length = post3.length + 1 := by omega
      rw [e6, List.take_succ_cons] at hok hok'
      simp only [List.getD_cons_succ, List.getD_cons_zero] at hok hok'
      exact crc16_mutate_ne pre ((z :: w :: post3).take post3.length) hb hb' (Ne.symm hne)
        (hok'.symm.trans hok)

/-! ### Splitter scanning lemmas -/

theorem getD_drop (l : List Nat) (i j d : Nat) :
    (l.drop i).getD j d = l.getD (i + j) d := by
  simp [List.getD_eq_getElem?_getD, List.getElem?_drop]

theorem getD_take_lt (l : List Nat) {n j : Nat} (d : Nat) (h : j < n) :
    (l.take n).getD j d = l.getD j d := by
  simp [List.getD_eq_getElem?_getD, List.getElem?_take, h]

theorem splitAux_stop_of_short {data : List Nat} {i : Nat}
    (h : data.length < i + 4) : splitAux data i = ([], i) := by
  rw [splitAux.eq_def, dif_pos h]

theorem splitAux_skip_one {data : List Nat} {i : Nat}
    (hA : ¬ data.length < i + 4) (hB : data.getD (i + 1) 0 ≠ 3) :
    splitAux data i = splitAux data (i + 1) := by
  rw [splitAux.eq_def, dif_neg hA, if_neg hB]

theorem splitAux_req_consume {data : List Nat} {i : Nat}
    (hA : ¬ data.length < i + 4) (hB : data.getD (i + 1) 0 = 3)
    (hC : i + 5 ≤ data.length ∧ data.getD (i + 2) 0 <<< 8 + data.getD (i + 3) 0 ≤ 125)
    (hD : i + 8 ≤ data.length) :
    splitAux data i
      = ((data.drop i).take 8 :: (splitAux data (i + 8)).1, (splitAux data (i + 8)).2) := by
  rw [splitAux.eq_def, dif_neg hA, if_pos hB, dif_pos hC, dif_pos hD]

theorem splitAux_req_wait {data : List Nat} {i : Nat}
    (hA : ¬ data.length < i + 4) (hB : data.getD (i + 1) 0 = 3)
    (hC : i + 5 ≤ data.length ∧ data.getD (i + 2) 0 <<< 8 + data.getD (i + 3) 0 ≤ 125)
    (hD : ¬ i + 8 ≤ data.length) :
    splitAux data i = ([], i) := by
  rw [splitAux.eq_def, dif_neg hA, if_pos hB, dif_pos hC, dif_neg hD]

theorem splitAux_resp_consume {data : List Nat} {i : Nat}
    (hA : ¬ data.length < i + 4) (hB : data.getD (i + 1) 0 = 3)
    (hC : ¬ (i + 5 ≤ data.length ∧ data.getD (i + 2) 0 <<< 8 + data.getD (i + 3) 0 ≤ 125))
    (hE : i + 2 < data.length)
    (hF : i + (3 + data.getD (i + 2) 0 + 2) ≤ data.length) :
    splitAux data i
      = ((data.drop i).take (3 + data.getD (i + 2) 0 + 2)
            :: (splitAux data (i + (3 + data.getD (i + 2) 0 + 2))).1,
          (splitAux data (i + (3 + data.getD (i + 2) 0 + 2))).2) := by
  rw [splitAux.eq_def, dif_neg hA, if_pos hB, dif_neg hC, dif_pos hE, dif_pos hF]

theorem splitAux_resp_wait {data : List Nat} {i : Nat}
    (hA : ¬ data.length < i + 4) (hB : data.getD (i + 1) 0 = 3)
    (hC : ¬ (i + 5 ≤ data.length ∧ data.getD (i + 2) 0 <<< 8 + data.getD (i + 3) 0 ≤ 125))
    (hE : i + 2 < data.length)
    (hF : ¬ i + (3 + data.getD (i + 2) 0 + 2) ≤ data.length) :
    splitAux data i = ([], i) := by
  rw [splitAux.eq_def, dif_neg hA, if_pos hB, dif_neg hC, dif_pos hE, dif_neg hF]

theorem splitAux_shift : ∀ (fuel : Nat) (data : List Nat) (i : Nat),
    data.length - i ≤ fuel →
    splitAux data i = Prod.map id (fun c => i + c) (splitAux (data.drop i) 0) := by
  intro fuel
  induction fuel with
  | zero =>
    intro data i hf
    rw [splitAux.eq_def data i, splitAux.eq_def (data.drop i) 0]
    rw [dif_pos (by omega : data.length < i + 4),
      dif_pos (by simp only [List.length_drop]; omega : (data.drop i).length < 0 + 4)]
    simp [Prod.map]
  | succ fuel ih =>
    intro data i hf
    rw [splitAux.eq_def data i, splitAux.eq_def (data.drop i) 0]
    simp only [Nat.zero_add, getD_drop, List.length_drop, List.drop_zero, List.drop_drop,
      Nat.add_zero]
    by_cases hA : data.length < i + 4
    · rw [dif_pos hA, dif_pos (by omega : data.length - i < 4)]
      simp [Prod.map]
    · rw [dif_neg hA, dif_neg (by omega : ¬ data.length - i < 4)]
      by_cases hB : data.getD (i + 1) 0 = 3
      · rw [if_pos hB, if_pos hB]
        by_cases hC : i + 5 ≤ data.length ∧ data.getD (i + 2) 0 <<< 8 + data.getD (i + 3) 0 ≤ 125
        · rw [dif_pos hC, dif_pos (show 5 ≤ data.length - i ∧
            data.getD (i + 2) 0 <<< 8 + data.getD (i + 3) 0 ≤ 125 from ⟨by omega, hC.2⟩)]
          by_cases hD : i + 8 ≤ data.length
          · rw [dif_pos hD, dif_pos (show 8 ≤ data.length - i by omega)]
            rw [ih data (i + 8) (by omega),
              ih (data.drop i) 8 (by simp only [List.length_drop]; omega)]
            simp [Prod.map, Prod.ext_iff, List.drop_drop]
            omega
          · rw [dif_neg hD, dif_neg (show ¬ 8 ≤ data.length - i by omega)]
            simp [Prod.map]
        · rw [dif_neg hC, dif_neg (show ¬ (5 ≤ data.length - i ∧
            data.getD (i + 2) 0 <<< 8 + data.getD (i + 3) 0 ≤ 125) from
              fun h => hC ⟨by omega, h.2⟩)]
          rw [dif_pos (by omega : i + 2 < data.length), dif_pos (by omega : 2 < data.length - i)]
          by_cases hF : i + (3 + data.getD (i + 2) 0 + 2) ≤ data.length
          · rw [dif_pos hF,
              dif_pos (show 3 + data.getD (i + 2) 0 + 2 ≤ data.length - i by omega)]
            rw [ih data (i + (3 + data.getD (i + 2) 0 + 2)) (by omega),
              ih (data.drop i) (3 + data.getD (i + 2) 0 + 2)
                (by simp only [List.length_drop]; omega)]
            simp [Prod.map, Prod.ext_iff, List.drop_drop]
            omega
          · rw [dif_neg hF,
              dif_neg (show ¬ 3 + data.getD (i + 2) 0 + 2 ≤ data.length - i by omega)]
            simp [Prod.map]
      · rw [if_neg hB, if_neg hB]
        rw [ih data (i + 1) (by omega),
          ih (data.drop i) 1 (by simp only [List.length_drop]; omega)]
        simp [Prod.map, Prod.ext_iff, List.drop_drop]
        omega

theorem splitAux_stuck (data : List Nat) (i : Nat) :
    splitAux data (splitAux data i).2 = ([], (splitAux data i).2) := by
  induction i using splitAux.induct data with
  | case1 x h =>
    rw [splitAux_stop_of_short h]
    exact splitAux_stop_of_short h
  | case2 x hA hB hC hD ih =>
    rw [splitAux_req_consume hA hB hC hD]
    exact ih
  | case3 x hA hB hC hD =>
    rw [splitAux_req_wait hA hB hC hD]
    exact splitAux_req_wait hA hB hC hD
  | case4 x hA hB hC hE hF ih =>
    rw [splitAux_resp_consume hA hB hC hE hF]
    exact ih
  | case5 x hA hB hC hE hF =>
    rw [splitAux_resp_wait hA hB hC hE hF]
    exact splitAux_resp_wait hA hB hC hE hF
  | case6 x hA hB hC hE =>
    exact absurd (by omega) hE
  | case7 x hA hB ih =>
    rw [splitAux_skip_one hA hB]
    exact ih

/-! ### decode_message evaluation lemmas -/

theorem decode_message_incomplete {f : List Nat} (h : f.length < 5) :
    decode_message f = .incomplete := by
  unfold decode_message
  rw [if_pos h]

theorem decode_message_crcFail {f : List Nat} (h5 : ¬ f.length < 5) (h : ¬ crcOk f) :
    decode_message f = .crcFail := by
  unfold decode_message
  rw [if_neg h5, if_pos h]

theorem decode_message_request {f : List Nat} (h5 : ¬ f.length < 5) (hok : crcOk f)
    (hfc : f.getD 1 0 = 3) (h8 : f.length = 8) :
    decode_message f = .msg (.request (f.getD 0 0) 3
      ((f.getD 2 0) <<< 8 + f.getD 3 0) ((f.getD 4 0) <<< 8 + f.getD 5 0)) := by
  unfold decode_message
  rw [if_neg h5, if_neg (not_not_intro hok), if_pos hfc, if_pos h8, hfc]

theorem decode_message_response {f : List Nat} {regs : List Nat}
    (h5 : ¬ f.length < 5) (hok : crcOk f)
    (hfc : f.getD 1 0 = 3) (h8 : f.length ≠ 8)
    (hpr : pairRegisters ((f.drop 3).take (f.getD 2 0)) = some regs) :
    decode_message f = .msg (.response (f.getD 0 0) 3 (f.getD 2 0) regs) := by
  unfold decode_message
  rw [if_neg h5, if_neg (not_not_intro hok), if_pos hfc, if_neg h8, hpr, hfc]

theorem decode_message_err {f : List Nat}
    (h5 : ¬ f.length < 5) (hok : crcOk f)
    (hfc : f.getD 1 0 = 3) (h8 : f.length ≠ 8)
    (hpr : pairRegisters ((f.drop 3).take (f.getD 2 0)) = none) :
    decode_message f = .err := by
  unfold decode_message
  rw [if_neg h5, if_neg (not_not_intro hok), if_pos hfc, if_neg h8, hpr]

theorem decode_message_unsupported {f : List Nat}
    (h5 : ¬ f.length < 5) (hok : crcOk f) (hfc : f.getD 1 0 ≠ 3) :
    decode_message f = .msg (.unsupported (f.getD 1 0)) := by
  unfold decode_message
  rw [if_neg h5, if_neg (not_not_intro hok), if_neg hfc]

theorem pairRegisters_of_even : ∀ (l : List Nat), l.length % 2 = 0 →
    ∃ regs, pairRegisters l = some regs ∧ regs.length = l.length / 2
  | [], _ => ⟨[], rfl, rfl⟩
  | [_], h => by simp at h
  | a :: b :: rest, h => by
    obtain ⟨regs, hpr, hlen⟩ := pairRegisters_of_even rest (by
      simp only [List.length_cons] at h
      omega)
    refine ⟨((a <<< 8) + b) :: regs, ?_, ?_⟩
    · unfold pairRegisters
      rw [hpr]
      rfl
    · simp only [List.length_cons, hlen]
      omega

theorem splitAux_frames_wf (data : List Nat) (i : Nat) :
    ∀ f ∈ (splitAux data i).1, 5 ≤ f.length ∧ f <:+: data ∧ f.getD 1 0 = 3 := by
  induction i using splitAux.induct data with
  | case1 x h =>
    rw [splitAux_stop_of_short h]
    intro f hf
    exact absurd hf (List.not_mem_nil f)
  | case2 x hA hB hC hD ih =>
    rw [splitAux_req_consume hA hB hC hD]
    intro f hf
    rcases List.mem_cons.mp hf with rfl | hf
    · refine ⟨?_, ⟨data.take x, (data.drop x).drop 8, ?_⟩, ?_⟩
      · rw [List.length_take, List.length_drop]
        omega
      · rw [List.append_assoc, List.take_append_drop, List.take_append_drop]
      · rw [getD_take_lt _ _ (by omega : (1:Nat) < 8), getD_drop]
        exact hB
    · exact ih f hf
  | case3 x hA hB hC hD =>
    rw [splitAux_req_wait hA hB hC hD]
    intro f hf
    exact absurd hf (List.not_mem_nil f)
  | case4 x hA hB hC hE hF ih =>
    rw [splitAux_resp_consume hA hB hC hE hF]
    intro f hf
    rcases List.mem_cons.mp hf with rfl | hf
    · refine ⟨?_, ⟨data.take x, (data.drop x).drop (3 + data.getD (x + 2) 0 + 2), ?_⟩, ?_⟩
      · rw [List.length_take, List.length_drop]
        omega
      · rw [List.append_assoc, List.take_append_drop, List.take_append_drop]
      · rw [getD_take_lt _ _ (by omega : 1 < 3 + data.getD (x + 2) 0 + 2), getD_drop]
        exact hB
    · exact ih f hf
  | case5 x hA hB hC hE hF =>
    rw [splitAux_resp_wait hA hB hC hE hF]
    intro f hf
    exact absurd hf (List.not_mem_nil f)
  | case6 x hA hB hC hE =>
    exact absurd (by omega) hE
  | case7 x hA hB ih =>
    rw [splitAux_skip_one hA hB]
    exact ih

/-! ### Claim theorems -/

/-- C1: the claim says a valid frame split across two read cycles decodes the
same as in one read, because unconsumed bytes are retained across cycles. The
code keeps no buffer across `recv` calls: `main` feeds each chunk to
`split_frames` on its own and drops the remainder, so the split delivery of
the request frame `01 03 00 00 00 0A C5 CD` decodes nothing while the
one-read delivery decodes the request. -/
theorem main_discards_partial_frames :
    processChunks [[0x01, 0x03, 0x00, 0x00], [0x00, 0x0A, 0xC5, 0xCD]] = []
      ∧ processChunks [[0x01, 0x03, 0x00, 0x00, 0x00, 0x0A, 0xC5, 0xCD]]
          = [.msg (.request 1 3 0 10)] := by
  constructor
  · simp [processChunks, split_frames, splitAux, decode_frames]
  · simp [processChunks, split_frames, splitAux, decode_frames]
    decide

/-- C2 (counterexample): the claim says every ValidatedFrame decodes with no
error outcome. The validated 6-byte frame `01 03 01 00 F0 48` (function code
`0x03`, length ≠ 8, byte_count 1) makes the register comprehension read one
byte past its slice: an `IndexError`, not a DecodedMessage. -/
theorem decode_validated_frame_err_counterexample :
    5 ≤ ([0x01, 0x03, 0x01, 0x00, 0xF0, 0x48] : List Nat).length
      ∧ crcOk [0x01, 0x03, 0x01, 0x00, 0xF0, 0x48]
      ∧ ([0x01, 0x03, 0x01, 0x00, 0xF0, 0x48] : List Nat).getD 1 0 = 0x03
      ∧ ([0x01, 0x03, 0x01, 0x00, 0xF0, 0x48] : List Nat).length ≠ 8
      ∧ decode_message [0x01, 0x03, 0x01, 0x00, 0xF0, 0x48] = .err := by
  decide

/-- C2 (amended): every ValidatedFrame with function code `0x03`, length ≠ 8,
an even byte_count (byte at offset 2) and `3 + byte_count ≤ length` decodes
to exactly one ResponseFrame whose registers sequence has length
`byte_count / 2`. -/
theorem decode_response_registers_length (m : List Nat)
    (h5 : 5 ≤ m.length) (hok : crcOk m) (hfc : m.getD 1 0 = 0x03) (h8 : m.length ≠ 8)
    (heven : m.getD 2 0 % 2 = 0) (hfit : 3 + m.getD 2 0 ≤ m.length) :
    ∃ regs, decode_message m = .msg (.response (m.getD 0 0) 3 (m.getD 2 0) regs)
      ∧ regs.length = m.getD 2 0 / 2 := by
  have hlen : ((m.drop 3).take (m.getD 2 0)).length = m.getD 2 0 := by
    rw [List.length_take, List.length_drop]
    omega
  obtain ⟨regs, hpr, hrl⟩ := pairRegisters_of_even _ (by rw [hlen]; exact heven)
  exact ⟨regs, decode_message_response (by omega) hok hfc h8 hpr, by rw [hrl, hlen]⟩

theorem decode_response_registers_length_witness :
    ∃ regs, decode_message [0x01, 0x03, 0x02, 0x00, 0x0A, 0x38, 0x43]
        = .msg (.response 1 3 2 regs) ∧ regs.length = 2 / 2 :=
  decode_response_registers_length [0x01, 0x03, 0x02, 0x00, 0x0A, 0x38, 0x43]
    (by decide) (by decide) (by decide) (by decide) (by decide) (by decide)

/-- C3: at any cursor whose byte at offset 1 is `0x03`, with at least 4 bytes
available and a big-endian register count ≤ 125 at offsets 2-3, the splitter
takes the 8-byte request candidate when 8 bytes are available, and otherwise
stops the scan reporting insufficient data, consuming nothing. -/
theorem splitter_request_fixed_length (data : List Nat) (i : Nat)
    (hfc : data.getD (i + 1) 0 = 0x03)
    (h4 : i + 4 ≤ data.length)
    (hreg : data.getD (i + 2) 0 <<< 8 + data.getD (i + 3) 0 ≤ 125) :
    (i + 8 ≤ data.length →
        splitAux data i
          = ((data.drop i).take 8 :: (splitAux data (i + 8)).1, (splitAux data (i + 8)).2))
      ∧ (data.length < i + 8 → splitAux data i = ([], i)) := by
  constructor
  · intro h8
    exact splitAux_req_consume (by omega) hfc ⟨by omega, hreg⟩ h8
  · intro h8
    by_cases h5 : i + 5 ≤ data.length
    · exact splitAux_req_wait (by omega) hfc ⟨h5, hreg⟩ (by omega)
    · exact splitAux_resp_wait (by omega) hfc (fun hc => h5 hc.1) (by omega) (by omega)

theorem splitter_request_fixed_length_witness :
    splitAux [0x01, 0x03, 0x00, 0x00, 0x00, 0x0A, 0xC5, 0xCD] 0
      = ([[0x01, 0x03, 0x00, 0x00, 0x00, 0x0A, 0xC5, 0xCD]], 8) := by
  have h := (splitter_request_fixed_length [0x01, 0x03, 0x00, 0x00, 0x00, 0x0A, 0xC5, 0xCD] 0
    (by decide) (by decide) (by decide)).1 (by decide)
  rw [h]
  simp [splitAux]

/-- C4: the CRC of `[0x01,0x03,0x00,0x00,0x00,0x0A]` has low byte `0xC5` and
high byte `0xCD`, so the frame `01 03 00 00 00 0A C5 CD` passes the CRC
comparison of `decode_message`. -/
theorem crc16_reference_value :
    crc16 [0x01, 0x03, 0x00, 0x00, 0x00, 0x0A] &&& 0xFF = 0xC5
      ∧ crc16 [0x01, 0x03, 0x00, 0x00, 0x00, 0x0A] >>> 8 = 0xCD
      ∧ crcOk [0x01, 0x03, 0x00, 0x00, 0x00, 0x0A, 0xC5, 0xCD] := by
  decide

/-- C5: changing any single byte of a CRC-validated frame to a different byte
value (data byte or either trailing CRC byte) makes the CRC comparison
fail. -/
theorem checksum_rejects_single_byte_mutation (frame : List Nat) (k b' : Nat)
    (hbytes : ∀ x ∈ frame, x < 256) (hb' : b' < 256)
    (hlen : 5 ≤ frame.length) (hok : crcOk frame)
    (hk : k < frame.length) (hne : b' ≠ frame.getD k 0) :
    ¬ crcOk (frame.set k b') := by
  have hdecomp : frame.take k ++ frame.getD k 0 :: frame.drop (k + 1) = frame := by
    rw [List.getD_eq_getElem frame 0 hk, List.getElem_cons_drop, List.take_append_drop]
  have hb : frame.getD k 0 < 65536 := by
    have hmem : frame.getD k 0 ∈ frame := by
      rw [List.getD_eq_getElem frame 0 hk]
      exact List.getElem_mem hk
    have := hbytes _ hmem
    omega
  rw [List.set_eq_take_cons_drop b' hk]
  exact crcOk_mutate_aux (frame.take k) (frame.drop (k + 1)) (frame.getD k 0) b'
    hb (by omega) hne (by rw [hdecomp]; exact hlen) (by rw [hdecomp]; exact hok)

theorem checksum_rejects_single_byte_mutation_witness :
    ¬ crcOk (([0x01, 0x03, 0x00, 0x00, 0x00, 0x0A, 0xC5, 0xCD] : List Nat).set 0 0x02) :=
  checksum_rejects_single_byte_mutation [0x01, 0x03, 0x00, 0x00, 0x00, 0x0A, 0xC5, 0xCD] 0 0x02
    (by decide) (by decide) (by decide) (by decide) (by decide) (by decide)

/-- C6: the CRC of `[0x01,0x03,0x02,0x00,0x0A]` has low byte `0x38` and high
byte `0x43`, and the validated frame `01 03 02 00 0A 38 43` decodes to the
response with unit 1, function code 3, byte_count 2 and registers `[10]`. -/
theorem decode_response_reference :
    crc16 [0x01, 0x03, 0x02, 0x00, 0x0A] &&& 0xFF = 0x38
      ∧ crc16 [0x01, 0x03, 0x02, 0x00, 0x0A] >>> 8 = 0x43
      ∧ crcOk [0x01, 0x03, 0x02, 0x00, 0x0A, 0x38, 0x43]
      ∧ decode_message [0x01, 0x03, 0x02, 0x00, 0x0A, 0x38, 0x43]
          = .msg (.response 1 3 2 [10]) := by
  decide

/-- C7: a buffer of garbage bytes (no scan position in the garbage sees
function code `0x03` at offset 1) followed by a frame the splitter extracts
on its own still yields exactly that frame, the cursor having advanced one
byte at each garbage position. -/
theorem splitter_resynchronizes (garbage frame : List Nat)
    (hfr : 4 ≤ frame.length)
    (hg : ∀ i, i < garbage.length → (garbage ++ frame).getD (i + 1) 0 ≠ 0x03)
    (hself : split_frames frame = [frame]) :
    split_frames (garbage ++ frame) = [frame]
      ∧ ∀ i, i < garbage.length →
          splitAux (garbage ++ frame) i = splitAux (garbage ++ frame) (i + 1) := by
  have hlen : (garbage ++ frame).length = garbage.length + frame.length := by simp
  have hstep : ∀ i, i < garbage.length →
      splitAux (garbage ++ frame) i = splitAux (garbage ++ frame) (i + 1) := by
    intro i hi
    exact splitAux_skip_one (by omega) (hg i hi)
  refine ⟨?_, hstep⟩
  have hwalk : ∀ m j, garbage.length - j = m → j ≤ garbage.length →
      splitAux (garbage ++ frame) j = splitAux (garbage ++ frame) garbage.length := by
    intro m
    induction m with
    | zero =>
      intro j h1 h2
      have hj : j = garbage.length := by omega
      rw [hj]
    | succ m ihm =>
      intro j h1 h2
      rw [hstep j (by omega)]
      exact ihm (j + 1) (by omega) (by omega)
  have h0 := hwalk garbage.length 0 (by omega) (by omega)
  have hshift := splitAux_shift ((garbage ++ frame).length - garbage.length)
    (garbage ++ frame) garbage.length (le_refl _)
  rw [List.drop_left] at hshift
  show (splitAux (garbage ++ frame) 0).1 = [frame]
  rw [h0, hshift]
  simpa [Prod.map, split_frames] using hself

theorem splitter_resynchronizes_witness :
    split_frames ([0xFF, 0xFF] ++ [0x01, 0x03, 0x00, 0x00, 0x00, 0x0A, 0xC5, 0xCD])
      = [[0x01, 0x03, 0x00, 0x00, 0x00, 0x0A, 0xC5, 0xCD]] :=
  (splitter_resynchronizes [0xFF, 0xFF] [0x01, 0x03, 0x00, 0x00, 0x00, 0x0A, 0xC5, 0xCD]
    (by decide) (by decide) (by simp [split_frames, splitAux])).1

/-- C8: re-scanning the unconsumed remainder left by one `split_frames` scan
extracts no frame and leaves the remainder unchanged; the splitter itself is
a pure function of the buffer. -/
theorem splitter_rescan_idempotent (data : List Nat) :
    split_frames (splitRest data) = [] ∧ splitRest (splitRest data) = splitRest data := by
  have hstuck := splitAux_stuck data 0
  have hshift := splitAux_shift (data.length - (splitAux data 0).2) data (splitAux data 0).2
    (le_refl _)
  rw [hstuck] at hshift
  have h1 : (splitAux (data.drop (splitAux data 0).2) 0).1 = [] := by
    have := congrArg Prod.fst hshift
    simpa [Prod.map] using this.symm
  have h2 : (splitAux (data.drop (splitAux data 0).2) 0).2 = 0 := by
    have := congrArg Prod.snd hshift
    simp [Prod.map] at this
    omega
  refine ⟨h1, ?_⟩
  unfold splitRest
  rw [h2]
  simp

/-- C9: a candidate frame that fails the CRC comparison yields the diagnostic
`crcFail` outcome — no exception, no decoded message — and decoding continues
through every following candidate of the same cycle. -/
theorem crc_failed_frame_dropped (f : List Nat) (post : List (List Nat))
    (h5 : 5 ≤ f.length) (hbad : ¬ crcOk f) :
    decode_message f = .crcFail
      ∧ decode_frames (f :: post) = .crcFail :: decode_frames post := by
  have hdm := decode_message_crcFail (by omega) hbad
  refine ⟨hdm, ?_⟩
  rw [decode_frames, hdm]

theorem crc_failed_frame_dropped_witness :
    decode_message [0x01, 0x03, 0x00, 0x00, 0x00, 0x0A, 0xC5, 0xCE] = .crcFail
      ∧ decode_frames [[0x01, 0x03, 0x00, 0x00, 0x00, 0x0A, 0xC5, 0xCE],
            [0x01, 0x03, 0x02, 0x00, 0x0A, 0x38, 0x43]]
          = .crcFail :: decode_frames [[0x01, 0x03, 0x02, 0x00, 0x0A, 0x38, 0x43]] :=
  crc_failed_frame_dropped [0x01, 0x03, 0x00, 0x00, 0x00, 0x0A, 0xC5, 0xCE]
    [[0x01, 0x03, 0x02, 0x00, 0x0A, 0x38, 0x43]] (by decide) (by decide)

/-- C10: every frame emitted by the splitter has length ≥ 5, is a contiguous
span of the input buffer, and carries function code `0x03` at offset 1;
consequently `decode_message` on such a frame never takes the under-length
diagnostic branch and never yields an UnsupportedFrame. -/
theorem split_frames_emits_wellformed (data f : List Nat) (hf : f ∈ split_frames data) :
    5 ≤ f.length ∧ f <:+: data ∧ f.getD 1 0 = 3
      ∧ decode_message f ≠ .incomplete
      ∧ ∀ fc, decode_message f ≠ .msg (.unsupported fc) := by
  obtain ⟨h5, hinf, hfc⟩ := splitAux_frames_wf data 0 f hf
  have hdm : decode_message f = .crcFail
      ∨ (∃ a b c, decode_message f = .msg (.request a 3 b c))
      ∨ (∃ a c regs, decode_message f = .msg (.response a 3 c regs))
      ∨ decode_message f = .err := by
    by_cases hok : crcOk f
    · by_cases h8 : f.length = 8
      · exact Or.inr (Or.inl ⟨_, _, _, decode_message_request (by omega) hok hfc h8⟩)
      · cases hpr : pairRegisters ((f.drop 3).take (f.getD 2 0)) with
        | none => exact Or.inr (Or.inr (Or.inr (decode_message_err (by omega) hok hfc h8 hpr)))
        | some regs =>
          exact Or.inr (Or.inr (Or.inl ⟨_, _, _,
            decode_message_response (by omega) hok hfc h8 hpr⟩))
    · exact Or.inl (decode_message_crcFail (by omega) hok)
  refine ⟨h5, hinf, hfc, ?_, ?_⟩
  · rcases hdm with h | ⟨a, b, c, h⟩ | ⟨a, c, regs, h⟩ | h <;> rw [h] <;> simp
  · intro fc
    rcases hdm with h | ⟨a, b, c, h⟩ | ⟨a, c, regs, h⟩ | h <;> rw [h] <;> simp

theorem split_frames_emits_wellformed_witness :
    5 ≤ ([0x01, 0x03, 0x00, 0x00, 0x00, 0x0A, 0xC5, 0xCD] : List Nat).length
      ∧ [0x01, 0x03, 0x00, 0x00, 0x00, 0x0A, 0xC5, 0xCD]
          <:+: [0x01, 0x03, 0x00, 0x00, 0x00, 0x0A, 0xC5, 0xCD]
      ∧ ([0x01, 0x03, 0x00, 0x00, 0x00, 0x0A, 0xC5, 0xCD] : List Nat).getD 1 0 = 3
      ∧ decode_message [0x01, 0x03, 0x00, 0x00, 0x00, 0x0A, 0xC5, 0xCD] ≠ .incomplete
      ∧ ∀ fc, decode_message [0x01, 0x03, 0x00, 0x00, 0x00, 0x0A, 0xC5, 0xCD]
          ≠ .msg (.unsupported fc) :=
  split_frames_emits_wellformed [0x01, 0x03, 0x00, 0x00, 0x00, 0x0A, 0xC5, 0xCD]
    [0x01, 0x03, 0x00, 0x00, 0x00, 0x0A, 0xC5, 0xCD] (by simp [split_frames, splitAux])

end Stream
